import Mathlib

set_option maxHeartbeats 1000000

/-
  Verification of `avwx/forecast/gfs.py` (NOAA GFS MAV/MEX forecast parsing).

  The Python source is shallowly embedded below.  Strings are Lean `String`s,
  Python `None`-able results are `Option`s, code that can raise an uncaught
  exception returns `Except Unit`.  `datetime` values are represented by the
  number of minutes since 0001-01-01 00:00 UTC (the proleptic Gregorian
  calendar, the same calendar `datetime` uses); the parsing code only reads
  the `hour` field and adds `timedelta(hours=...)`, both of which are defined
  on this representation below.
-/

/-- The whitespace characters removed by Python `str.strip()` (and matched by
a regex `\s` in ASCII data). -/
def wsChars : List Char := [' ', '\t', '\n', '\r', '\x0b', '\x0c']

/-- Python `str.strip(chars)` on a character list: every character belonging
to `strip` is removed from both ends. -/
def stripTok (strip : List Char) (cs : List Char) : List Char :=
  ((cs.dropWhile (fun c => strip.contains c)).reverse.dropWhile
    (fun c => strip.contains c)).reverse

/-- The `while len(line) >= size` loop of `_split_line`, one fuel unit per
iteration.  `fuel = cs.length + 1` always suffices (each iteration drops
`size > 0` characters).  For `size = 0` the Python loop would not terminate;
the source only ever calls it with `size` 3 or 4. -/
def splitChunksF (size : Nat) : Nat → List Char → List (List Char)
  | 0, _ => []
  | fuel + 1, cs =>
    if size ≤ cs.length ∧ 0 < size then
      cs.take size :: splitChunksF size fuel (cs.drop size)
    else []

/-- The chunking loop of `_split_line` run with enough fuel. -/
def splitChunks (size : Nat) (cs : List Char) : List (List Char) :=
  splitChunksF size (cs.length + 1) cs

/-- `_split_line(line, size, prefix, strip)`: drop the first `pfx` characters,
then repeatedly take `size`-character chunks while at least `size` characters
remain, stripping each chunk on both ends.  The Python defaults
(`size=3, prefix=4, strip=" |"`) are spelled out at every call site. -/
def _split_line (line : String) (size pfx : Nat) (strip : List Char) : List String :=
  (splitChunks size (line.data.drop pfx)).map (fun c => String.mk (stripTok strip c))

/-- A decoded numeric value: the token text paired with its numeric value
(the shape of `avwx.structs.Number` that this module relies on). -/
structure GNumber where
  repr : String
  value : Int
deriving DecidableEq, Repr

/-- Python `int(s)` restricted to the digit-only tokens appearing in GFS
reports: all-digit strings parse, anything else (including the empty string)
raises, i.e. yields `none`.  (Structural recursion so that concrete inputs
evaluate inside the kernel.) -/
def pyToNat (s : String) : Option Nat :=
  if s.data ≠ [] ∧ s.data.all (fun c => c.isDigit) then
    some (s.data.foldl (fun n c => n * 10 + (c.toNat - 48)) 0)
  else none

/-- Python `s[:n]`. -/
def pyTake (s : String) (n : Nat) : String := String.mk (s.data.take n)

/-- The accumulator loop of `str.split("\n")`. -/
def splitLinesGo : List Char → List Char → List String
  | acc, [] => [String.mk acc.reverse]
  | acc, c :: r =>
    if c = '\n' then String.mk acc.reverse :: splitLinesGo [] r
    else splitLinesGo (c :: acc) r

/-- Python `s.split("\n")`: always at least one element. -/
def pySplitLines (s : String) : List String := splitLinesGo [] s.data

/-- Modelled from the spec: the external numeric-token converter
`avwx.parsing.core.make_number` (module `avwx.parsing.core`, which is not part
of the analysed source).  Per the spec it is "given a string token ... returns
a structured numeric value or an absent marker"; an empty token yields the
absent marker, and plain digit tokens (the only shape appearing in GFS rows)
yield their value.  Sentinel / non-numeric tokens also yield the absent
marker here. -/
def make_number (s : String) : Option GNumber :=
  if s = "" then none else (pyToNat s).map (fun n => ⟨s, (n : Int)⟩)

/-- `_numbers(line, size, postfix)`: every token of the split line — empty or
not — is passed through the converter with the suffix appended. -/
def _numbers (line : String) (size : Nat) (sfx : String) : List (Option GNumber) :=
  (_split_line line size 4 [' ', '|']).map (fun item => make_number (item ++ sfx))

/-- `_wind_direction(line, size)`: `_numbers` with the literal suffix `"0"`. -/
def _wind_direction (line : String) (size : Nat) : List (Option GNumber) :=
  _numbers line size "0"

/-- One slot of a handler result, as the dynamically typed Python values:
`None`, a raw string, a `Number`, or a 2-tuple of possibly-absent numbers. -/
inductive HVal where
  | non : HVal
  | str (s : String) : HVal
  | num (n : GNumber) : HVal
  | pair (a b : Option GNumber) : HVal
deriving DecidableEq, Repr

/-- Python truthiness of a handler slot value: `None` and `""` are falsy,
`Number` objects and (2-element) tuples are truthy. -/
def truthy : HVal → Bool
  | .non => false
  | .str s => s ≠ ""
  | .num _ => true
  | .pair _ _ => true

/-- The scanning loop of `_thunder`: an empty token appends `None`; a
non-empty token either completes a pending pair (emitting the 2-tuple and
clearing the pending state) or appends `None` and becomes the pending
converted value. -/
def thunderScan (conv : String → Option GNumber) :
    Option GNumber → List String → List HVal
  | _, [] => []
  | pending, item :: rest =>
    if item = "" then HVal.non :: thunderScan conv pending rest
    else
      match pending with
      | some p => HVal.pair (some p) (conv item) :: thunderScan conv none rest
      | none => HVal.non :: thunderScan conv (conv item) rest

/-- `_thunder(line, size)`: tokenize with prefix 5 and strip set `" /"`, then
run the pairing scan with no pending value. -/
def _thunder (line : String) (size : Nat) : List HVal :=
  thunderScan make_number none (_split_line line size 5 [' ', '/'])

/-- A stored period-record field value (string or number; tuples are
decomposed before storing). -/
inductive Val where
  | vStr (s : String) : Val
  | vNum (n : GNumber) : Val
deriving DecidableEq, Repr

/-- Python dict lookup on an insertion-ordered association list. -/
def pyGet {β : Type} (d : List (String × β)) (k : String) : Option β :=
  (d.find? (fun e => e.1 == k)).map (fun e => e.2)

/-- Python dict assignment `d[k] = v`: replace in place if the key is
present, append otherwise. -/
def pySet {β : Type} : List (String × β) → String → β → List (String × β)
  | [], k, v => [(k, v)]
  | e :: t, k, v => if e.1 = k then (k, v) :: t else e :: pySet t k v

/-- Python `{**base, **ov}`: copy `base`, then insert the items of `ov` in
order, overriding on key collision. -/
def dictMerge {β : Type} (base ov : List (String × β)) : List (String × β) :=
  ov.foldl (fun d e => pySet d e.1 e.2) base

/-- A `Timestamp(repr, dt)` value; `dt` is minutes since 0001-01-01 00:00 UTC. -/
structure GTimestamp where
  repr : String
  dt : Int
deriving DecidableEq, Repr

/-- One time-period record: the dict `{"time": ..., field: value, ...}`,
with the `"time"` entry held in its own field (no handler key is `"time"`). -/
structure PeriodRec where
  time : GTimestamp
  fields : List (String × Val)
deriving DecidableEq, Repr

/-- `datetime.hour` of an instant in minutes (epoch is a midnight); `/` and
`%` on `Int` are Euclidean and agree with Python floor division and modulo
for the positive divisors used here. -/
def hourOfMin (t : Int) : Int := (t / 60) % 24

/-- The loop of `_find_time_periods`: skip empty tokens; `int()` of a
non-numeric token raises (uncaught), modelled as `Except.error`. -/
def findTimePeriodsGo : Int → Int → List String → Except Unit (List PeriodRec)
  | _, _, [] => .ok []
  | prev, t, item :: rest =>
    if item = "" then findTimePeriodsGo prev t rest
    else
      match pyToNat item with
      | none => .error ()
      | some n =>
        let hour : Int := (n : Int)
        let d0 := hour - prev
        let d := if d0 < 0 then d0 + 24 else d0
        let t2 := t + 60 * d
        (findTimePeriodsGo hour t2 rest).map
          (fun ps => { time := { repr := item, dt := t2 }, fields := [] } :: ps)

/-- `_find_time_periods(line, timestamp)`: the running previous hour starts at
the issuance timestamp's hour-of-day; each emitted timestamp becomes one empty
period record `{"time": time}`. -/
def _find_time_periods (toks : List String) (t0 : Int) : Except Unit (List PeriodRec) :=
  findTimePeriodsGo (hourOfMin t0) t0 toks

/-- A handler function as referenced from the handler tables: `_numbers`
(with its suffix), `_split_line` used directly as a categorical handler, or
`_thunder`. -/
inductive Handler where
  | nums (sfx : String) : Handler
  | cat : Handler
  | thun : Handler
deriving DecidableEq, Repr

/-- Invoke a handler as `handler(line, size=size)`, injecting the result into
the common dynamically-typed slot-value shape. -/
def runHandler : Handler → String → Nat → List HVal
  | .nums sfx, line, size =>
    (_numbers line size sfx).map (fun v =>
      match v with
      | some n => HVal.num n
      | none => HVal.non)
  | .cat, line, size => (_split_line line size 4 [' ', '|']).map HVal.str
  | .thun, line, size => _thunder line size

/-- One handler-table entry `(*keys, handler)`. -/
structure Entry where
  keys : List String
  handler : Handler
deriving DecidableEq, Repr

/-- The shared base handler table `_HANDLERS`. -/
def _HANDLERS : List (String × Entry) :=
  [ ("TMP", ⟨["temperature"], .nums ""⟩),
    ("DPT", ⟨["dewpoint"], .nums ""⟩),
    ("CLD", ⟨["cloud"], .cat⟩),
    ("WDR", ⟨["wind_direction"], .nums "0"⟩),
    ("WSP", ⟨["wind_speed"], .nums ""⟩),
    ("P06", ⟨["precip_chance_6"], .nums ""⟩),
    ("P12", ⟨["precip_chance_12"], .nums ""⟩),
    ("P24", ⟨["precip_chance_24"], .nums ""⟩),
    ("Q06", ⟨["precip_amount_6"], .nums ""⟩),
    ("Q12", ⟨["precip_amount_12"], .nums ""⟩),
    ("Q24", ⟨["precip_amount_24"], .nums ""⟩),
    ("TYP", ⟨["precip_type"], .cat⟩) ]

/-- The short-range (MAV) override table `_SHORT_HANDLERS`. -/
def _SHORT_HANDLERS : List (String × Entry) :=
  [ ("T06", ⟨["thunder_storm_6", "severe_storm_6"], .thun⟩),
    ("T12", ⟨["thunder_storm_12", "severe_storm_12"], .thun⟩),
    ("POZ", ⟨["freezing_precip"], .nums ""⟩),
    ("POS", ⟨["snow"], .nums ""⟩),
    ("CIG", ⟨["ceiling"], .nums ""⟩),
    ("VIS", ⟨["visibility"], .nums ""⟩),
    ("OBV", ⟨["vis_obstruction"], .cat⟩) ]

/-- The long-range (MEX) override table `_LONG_HANDLERS`. -/
def _LONG_HANDLERS : List (String × Entry) :=
  [ ("T12", ⟨["thunder_storm_12"], .nums ""⟩),
    ("T24", ⟨["thunder_storm_24"], .nums ""⟩),
    ("PZP", ⟨["freezing_precip"], .nums ""⟩),
    ("PRS", ⟨["rain_snow_mix"], .nums ""⟩),
    ("PSN", ⟨["snow"], .nums ""⟩),
    ("SNW", ⟨["snow_amount_24"], .nums ""⟩) ]

/-- The tuple branch of the merge loop: `for j, key in enumerate(keys): if
value[j]: periods[i][key] = value[j]`.  The tuples the handlers produce have
exactly two elements, so a table entry with three or more keys would index
the tuple out of bounds — an uncaught `IndexError`, modelled as an error. -/
def mergePair (d : List (String × Val)) (keys : List String)
    (a b : Option GNumber) : Except Unit (List (String × Val)) :=
  match keys with
  | [] => .ok d
  | [k1] =>
    .ok (match a with
         | some n => pySet d k1 (.vNum n)
         | none => d)
  | [k1, k2] =>
    let d1 := match a with
              | some n => pySet d k1 (.vNum n)
              | none => d
    .ok (match b with
         | some n => pySet d1 k2 (.vNum n)
         | none => d1)
  | _ => .error ()

/-- Merge one handler slot value into one period record (`_parse_lines` inner
loop body): falsy values are skipped, tuples are merged element-wise, scalars
are written under the first key (`keys[0]` on an empty key list would raise). -/
def mergeOne (keys : List String) (p : PeriodRec) (v : HVal) : Except Unit PeriodRec :=
  if truthy v then
    match v with
    | .pair a b => (mergePair p.fields keys a b).map (fun d => { p with fields := d })
    | .str s =>
      match keys with
      | [] => .error ()
      | k :: _ => .ok { p with fields := pySet p.fields k (.vStr s) }
    | .num n =>
      match keys with
      | [] => .error ()
      | k :: _ => .ok { p with fields := pySet p.fields k (.vNum n) }
    | .non => .ok p
  else .ok p

/-- `for i in range(len(periods)): value = values[i]; ...` — one slot value is
read for every period; if the handler produced fewer values than there are
periods, `values[i]` raises an uncaught `IndexError`, modelled as an error. -/
def mergeLine (keys : List String) :
    List PeriodRec → List HVal → Except Unit (List PeriodRec)
  | [], _ => .ok []
  | _ :: _, [] => .error ()
  | p :: ps, v :: vs =>
    match mergeOne keys p v, mergeLine keys ps vs with
    | .ok q, .ok qs => .ok (q :: qs)
    | .error e, _ => .error e
    | .ok _, .error e => .error e

/-- The per-line loop of `_parse_lines`: look the first 3 characters of the
line up in the table; on a miss (`KeyError`) skip the line, otherwise run the
handler and merge its values into the periods. -/
def parseLinesGo (tbl : List (String × Entry)) (size : Nat) :
    List PeriodRec → List String → Except Unit (List PeriodRec)
  | periods, [] => .ok periods
  | periods, line :: rest =>
    match pyGet tbl (pyTake line 3) with
    | none => parseLinesGo tbl size periods rest
    | some e =>
      match mergeLine e.keys periods (runHandler e.handler line size) with
      | .ok ps => parseLinesGo tbl size ps rest
      | .error err => .error err

/-- `_parse_lines(periods, lines, size, handlers)`: the effective table is
`{**_HANDLERS, **handlers}` when an override table is given. -/
def _parse_lines (periods : List PeriodRec) (lines : List String) (size : Nat)
    (handlers : Option (List (String × Entry))) : Except Unit (List PeriodRec) :=
  parseLinesGo
    (match handlers with
     | some h => dictMerge _HANDLERS h
     | none => _HANDLERS)
    size periods lines

/-- The calendar fields captured by `strptime` for the format
`%m/%d/%Y  %H%M`. -/
structure PDateTime where
  year : Nat
  month : Nat
  day : Nat
  hour : Nat
  minute : Nat
deriving DecidableEq, Repr

/-- Numeric value of a decimal digit character. -/
def digitVal (c : Char) : Option Nat :=
  if c.isDigit then some (c.toNat - 48) else none

/-- Candidate matches (in regex alternation order: two-digit alternatives
first, then the one-digit alternative) for a 1-2 digit `strptime` field. -/
def cands2or1 (ok2 : Nat → Nat → Bool) (ok1 : Nat → Bool) (cs : List Char) :
    List (Nat × List Char) :=
  (match cs with
   | a :: b :: r =>
     match digitVal a, digitVal b with
     | some x, some y => if ok2 x y then [(10 * x + y, r)] else []
     | _, _ => []
   | _ => []) ++
  (match cs with
   | a :: r =>
     match digitVal a with
     | some x => if ok1 x then [(x, r)] else []
     | none => []
   | [] => [])

/-- `%m` — regex `1[0-2]|0[1-9]|[1-9]`. -/
def candsMonth : List Char → List (Nat × List Char) :=
  cands2or1 (fun x y => decide ((x = 1 ∧ y ≤ 2) ∨ (x = 0 ∧ 1 ≤ y)))
    (fun x => decide (1 ≤ x ∧ x ≤ 9))

/-- `%d` — regex `3[01]|[12]\d|0[1-9]|[1-9]`. -/
def candsDay : List Char → List (Nat × List Char) :=
  cands2or1 (fun x y => decide ((x = 3 ∧ y ≤ 1) ∨ x = 1 ∨ x = 2 ∨ (x = 0 ∧ 1 ≤ y)))
    (fun x => decide (1 ≤ x ∧ x ≤ 9))

/-- `%H` — regex `2[0-3]|[0-1]\d|\d`. -/
def candsHour : List Char → List (Nat × List Char) :=
  cands2or1 (fun x y => decide ((x = 2 ∧ y ≤ 3) ∨ x ≤ 1)) (fun _ => true)

/-- `%M` — regex `[0-5]\d|\d`. -/
def candsMinute : List Char → List (Nat × List Char) :=
  cands2or1 (fun x _ => decide (x ≤ 5)) (fun _ => true)

/-- `%Y` — regex `\d\d\d\d` (exactly four digits). -/
def year4 : List Char → Option (Nat × List Char)
  | a :: b :: c :: d :: r =>
    match digitVal a, digitVal b, digitVal c, digitVal d with
    | some w, some x, some y, some z => some (1000 * w + 100 * x + 10 * y + z, r)
    | _, _, _, _ => none
  | _ => none

/-- Match one literal character. -/
def litChar (c : Char) : List Char → Option (List Char)
  | x :: r => if x = c then some r else none
  | [] => none

/-- Whitespace in a `strptime` format string matches `\s+`: at least one
whitespace character, consumed greedily. -/
def ws1 : List Char → Option (List Char)
  | c :: r =>
    if wsChars.contains c then some (r.dropWhile (fun x => wsChars.contains x))
    else none
  | [] => none

/-- Leap-year rule of the proleptic Gregorian calendar. -/
def isLeap (y : Nat) : Bool := y % 4 = 0 ∧ (y % 100 ≠ 0 ∨ y % 400 = 0)

/-- Days in month `m` (1-12) of year `y`. -/
def daysInMonth (y m : Nat) : Nat :=
  if m = 2 then (if isLeap y then 29 else 28)
  else if m = 4 ∨ m = 6 ∨ m = 9 ∨ m = 11 then 30
  else 31

/-- Modelled from the spec: `datetime.strptime(text, r"%m/%d/%Y  %H%M")`
(Python standard library, not part of the analysed source).  CPython compiles
the format to a regex — 1-2 digit month/day/hour/minute fields with the
two-digit alternatives tried first, a four-digit year, literal slashes, and
`\s+` for the whitespace run — matched from the start with backtracking and
required to consume the whole string; the resulting fields must form a valid
calendar date (and `datetime` requires year ≥ 1). -/
def parseMDYHM (cs : List Char) : Option PDateTime :=
  (candsMonth cs).findSome? fun mc =>
  (litChar '/' mc.2).bind fun r2 =>
  (candsDay r2).findSome? fun dc =>
  (litChar '/' dc.2).bind fun r4 =>
  (year4 r4).bind fun yc =>
  (ws1 yc.2).bind fun r6 =>
  (candsHour r6).findSome? fun hc =>
  (candsMinute hc.2).findSome? fun nc =>
  if nc.2 = [] ∧ 1 ≤ yc.1 ∧ dc.1 ≤ daysInMonth yc.1 mc.1 then
    some ⟨yc.1, mc.1, dc.1, hc.1, nc.1⟩
  else none

/-- Days from 0001-01-01 to the start of year `y` (proleptic Gregorian). -/
def daysBeforeYear (y : Nat) : Nat :=
  365 * (y - 1) + (y - 1) / 4 + (y - 1) / 400 - (y - 1) / 100

/-- Days from the start of year `y` to the start of month `m`. -/
def daysBeforeMonth (y m : Nat) : Nat :=
  (List.range m).foldl (fun a mm => if mm = 0 then a else a + daysInMonth y mm) 0

/-- Modelled from the spec: conversion of an aware UTC `datetime` to the
minutes-since-0001-01-01 representation used throughout this file. -/
def dtMinutes (t : PDateTime) : Int :=
  (((((daysBeforeYear t.year + daysBeforeMonth t.year t.month + (t.day - 1)) * 24)
      + t.hour) * 60 + t.minute : Nat) : Int)

/-- Python slice `s[a:b]` (non-negative bounds, clamped). -/
def pySlice (s : String) (a b : Nat) : String :=
  String.mk ((s.data.drop a).take (b - a))

/-- `_timestamp(line)`: parse `line[27:42]` with
`datetime.strptime(..., r"%m/%d/%Y  %H%M")`; a `ValueError` from `strptime`
is uncaught and aborts the parse. -/
def _timestamp (line : String) : Except Unit GTimestamp :=
  let text := pySlice line 27 42
  match parseMDYHM text.data with
  | some t => .ok { repr := text, dt := dtMinutes t }
  | none => .error ()

/-- Python `str.strip()` (no argument): strip whitespace from both ends. -/
def pyStrip (s : String) : String := String.mk (stripTok wsChars s.data)

/-- The metadata dict and line list produced by `_init_parse`. -/
structure InitData where
  raw : String
  station : String
  time : GTimestamp
  lines : List String
deriving DecidableEq, Repr

/-- `_init_parse(report)`: strip the report, split into lines, take the
station id from the first four characters and the timestamp from line 0
(`split` always yields at least one line, so `lines[0]` cannot raise). -/
def _init_parse (report : String) : Except Unit InitData :=
  let r := pyStrip report
  let lines := pySplitLines r
  (_timestamp (lines.headD "")).map fun t =>
    { raw := r, station := pyTake r 4, time := t, lines := lines }

/-- Python `lines[i]`: an out-of-range index raises `IndexError` (uncaught). -/
def getLine (lines : List String) (i : Nat) : Except Unit String :=
  match lines.get? i with
  | some l => .ok l
  | none => .error ()

/-- The fully decoded report (`MavData` / `MexData`): the `remarks` slot is
always `None` in this module. -/
structure GReportData where
  raw : String
  station : String
  time : GTimestamp
  remarks : Option String
  forecast : List PeriodRec
deriving DecidableEq, Repr

/-- `parse_mav(report)`: `None` for empty input, otherwise init-parse, build
the timeline from line 2 (width 3, prefix 4), and run the data rows from
line 3 on with the short-range override table. -/
def parse_mav (report : String) : Except Unit (Option GReportData) :=
  if report = "" then .ok none
  else
    (_init_parse report).bind fun init =>
    (getLine init.lines 2).bind fun hourLine =>
    (_find_time_periods (_split_line hourLine 3 4 [' ', '|']) init.time.dt).bind fun periods =>
    (_parse_lines periods (init.lines.drop 3) 3 (some _SHORT_HANDLERS)).map fun ps =>
    some { raw := init.raw, station := init.station, time := init.time,
           remarks := none, forecast := ps }

/-- The part of `parse_mex` that runs after the CLIMO truncation: build the
timeline from line 1 (width 4, prefix 4) and run the data rows from line 3 on
with the long-range override table. -/
def mexTail (time : GTimestamp) (raw station : String) (lines : List String) :
    Except Unit GReportData :=
  (getLine lines 1).bind fun hourLine =>
  (_find_time_periods (_split_line hourLine 4 4 [' ', '|']) time.dt).bind fun periods =>
  (_parse_lines periods (lines.drop 3) 4 (some _LONG_HANDLERS)).map fun ps =>
  { raw := raw, station := station, time := time, remarks := none, forecast := ps }

/-- Python `s.find(pat)` as an `Option`: index of the first occurrence
(`-1` becomes `none`). -/
def findSubGo (pat : List Char) : List Char → Nat → Option Nat
  | cs, i =>
    if pat.isPrefixOf cs then some i
    else
      match cs with
      | [] => none
      | _ :: t => findSubGo pat t (i + 1)

/-- Python `s.find(pat)` on strings. -/
def findSub (s pat : String) : Option Nat := findSubGo pat.data s.data 0

/-- `parse_mex(report)`: like `parse_mav`, but if there are at least three
lines and line 2 contains `" CLIMO"`, every line is first truncated at the
index of that first occurrence. -/
def parse_mex (report : String) : Except Unit (Option GReportData) :=
  if report = "" then .ok none
  else
    (_init_parse report).bind fun init =>
    let lines :=
      match init.lines.get? 2 with
      | some l2 =>
        match findSub l2 " CLIMO" with
        | some k => init.lines.map (fun l => pyTake l k)
        | none => init.lines
      | none => init.lines
    (mexTail init.time init.raw init.station lines).map some

theorem splitChunksF_length {size : Nat} (hw : 0 < size) :
    ∀ (fuel : Nat) (cs : List Char), cs.length < fuel →
      (splitChunksF size fuel cs).length = cs.length / size := by
  intro fuel
  induction fuel with
  | zero => intro cs h; omega
  | succ n ih =>
    intro cs h
    rw [splitChunksF]
    split
    · rename_i hc
      simp only [List.length_cons]
      rw [ih (cs.drop size) (by simp [List.length_drop]; omega)]
      rw [List.length_drop]
      exact (Nat.div_eq_sub_div hw hc.1).symm
    · rename_i hc
      have hlt : cs.length < size := by
        rcases Nat.lt_or_ge cs.length size with h1 | h1
        · exact h1
        · exact absurd ⟨h1, hw⟩ hc
      rw [Nat.div_eq_of_lt hlt]
      rfl

theorem splitChunksF_get? {size : Nat} (hw : 0 < size) :
    ∀ (fuel : Nat) (cs : List Char) (i : Nat), cs.length < fuel →
      i < cs.length / size →
      (splitChunksF size fuel cs).get? i = some ((cs.drop (i * size)).take size) := by
  intro fuel
  induction fuel with
  | zero => intro cs i h _; omega
  | succ n ih =>
    intro cs i h hi
    have hle : size ≤ cs.length := by
      rcases Nat.lt_or_ge cs.length size with h1 | h1
      · rw [Nat.div_eq_of_lt h1] at hi; omega
      · exact h1
    rw [splitChunksF]
    rw [if_pos ⟨hle, hw⟩]
    match i with
    | 0 => simp
    | j + 1 =>
      simp only [List.get?_cons_succ]
      have hd : (cs.drop size).length < n := by
        simp only [List.length_drop]; omega
      have hq : cs.length / size = (cs.length - size) / size + 1 :=
        Nat.div_eq_sub_div hw hle
      have hj : j < (cs.drop size).length / size := by
        rw [List.length_drop]; omega
      rw [ih (cs.drop size) j hd hj, List.drop_drop]
      have : size + j * size = (j + 1) * size := by ring
      rw [this]

theorem stripTok_all_mem {strip : List Char} :
    ∀ cs : List Char, (∀ c ∈ cs, c ∈ strip) → stripTok strip cs = [] := by
  intro cs h
  unfold stripTok
  have h1 : cs.dropWhile (fun c => strip.contains c) = [] := by
    rw [List.dropWhile_eq_nil_iff]
    intro x hx
    simpa using h x hx
  rw [h1]
  rfl

/-- C5: `_split_line` returns exactly `(line.length - p) / w` tokens (zero
when fewer than `w` characters remain after the prefix, which truncated
subtraction makes automatic); token `i` is the `w`-character chunk starting
at offset `p + i*w` with the strip characters removed from both ends; and a
line of blanks yields only empty tokens whenever the strip set contains the
blank. -/
theorem split_line_spec (line : String) (w p : Nat) (strip : List Char)
    (hw : 0 < w) :
    (_split_line line w p strip).length = (line.length - p) / w ∧
    (∀ i, i < (line.length - p) / w →
      (_split_line line w p strip).get? i =
        some (String.mk (stripTok strip ((line.data.drop (p + i * w)).take w)))) ∧
    ((∀ c ∈ line.data, c = ' ') → ' ' ∈ strip →
      ∀ t ∈ _split_line line w p strip, t = "") := by
  have hlen : line.length = line.data.length := rfl
  refine ⟨?_, ?_, ?_⟩
  · unfold _split_line splitChunks
    rw [List.length_map,
      splitChunksF_length hw _ _ (Nat.lt_succ_self _),
      List.length_drop, hlen]
  · intro i hi
    unfold _split_line splitChunks
    rw [List.get?_map,
      splitChunksF_get? hw _ _ i (Nat.lt_succ_self _)
        (by rw [List.length_drop, ← hlen]; exact hi),
      List.drop_drop]
    rfl
  · intro hblank hsp t ht
    unfold _split_line at ht
    rcases List.mem_map.mp ht with ⟨c, hc, rfl⟩
    have hsub : ∀ x ∈ c, x ∈ line.data := by
      unfold splitChunks at hc
      intro x hx
      -- every chunk is a take of a drop of the (dropped) line
      have : ∀ fuel cs, ∀ ch ∈ splitChunksF w fuel cs, ∀ y ∈ ch, y ∈ cs := by
        intro fuel
        induction fuel with
        | zero => intro cs ch h1; simp [splitChunksF] at h1
        | succ n ih =>
          intro cs ch h1 y hy
          rw [splitChunksF] at h1
          split at h1
          · rcases List.mem_cons.mp h1 with h2 | h2
            · subst h2; exact List.take_subset _ _ hy
            · exact List.drop_subset _ _ (ih (cs.drop w) ch h2 y hy)
          · simp at h1
      exact List.drop_subset _ _ (this _ _ c hc x hx)
    have : stripTok strip c = [] := by
      apply stripTok_all_mem
      intro x hx
      have := hblank x (hsub x hx)
      rw [this]
      exact hsp
    rw [this]

/-- Witness for `split_line_spec` at a concrete hour line, width 3, prefix 4. -/
theorem split_line_spec_witness :
    (0 < 3) ∧
    (_split_line "HR   06 09" 3 4 [' ', '|']).length =
      ("HR   06 09".length - 4) / 3 :=
  ⟨by decide, (split_line_spec "HR   06 09" 3 4 [' ', '|'] (by decide)).1⟩

/-- C2 counterexample: in `_wind_direction` an empty column token becomes
`"" + "0" = "0"` and converts to the numeric value 0 — a present, non-absent
value — instead of the absent marker the claim requires. -/
theorem wind_direction_empty_token_not_absent :
    _split_line "WDR    " 3 4 [' ', '|'] = [""] ∧
    _wind_direction "WDR    " 3 = [some ⟨"0", 0⟩] := by decide

/-- C2 (amended): every token — empty or not — is passed through the
converter with the suffix appended.  With the empty suffix an empty token
yields absent (the converter maps the empty string to absent), but for wind
direction the appended `"0"` turns an empty token into the numeric value 0
rather than an absent value. -/
theorem numbers_empty_token_behavior (line : String) (size i : Nat)
    (h : (_split_line line size 4 [' ', '|']).get? i = some "") :
    (_numbers line size "").get? i = some none ∧
    (_wind_direction line size).get? i = some (some ⟨"0", 0⟩) ∧
    (∀ sfx, _numbers line size sfx =
      (_split_line line size 4 [' ', '|']).map (fun t => make_number (t ++ sfx))) := by
  refine ⟨?_, ?_, fun _ => rfl⟩
  · unfold _numbers
    rw [List.get?_map, h]
    decide
  · unfold _wind_direction _numbers
    rw [List.get?_map, h]
    decide

/-- Witness for `numbers_empty_token_behavior` on a row whose only column is
blank. -/
theorem numbers_empty_token_behavior_witness :
    (_numbers "WSP    " 3 "").get? 0 = some none ∧
    (_wind_direction "WSP    " 3).get? 0 = some (some ⟨"0", 0⟩) :=
  ⟨(numbers_empty_token_behavior "WSP    " 3 0 (by decide)).1,
   (numbers_empty_token_behavior "WSP    " 3 0 (by decide)).2.1⟩

/-- C1: a recognized data row that yields fewer tokens than there are period
slots does not degrade to missing data — the merge loop reads `values[i]` out
of bounds and the whole parse aborts.  Here the hour line yields two periods
but the `TMP` row yields a single token, so `values[1]` raises. -/
theorem parse_mav_short_row_raises :
    parse_mav
      "KXYZ   GFS MOS GUIDANCE    1/02/2023  1200 UTC\nX\nHR   06 09\nTMP  50"
      = .error () := by rfl

theorem pyGet_cons {β : Type} (e : String × β) (t : List (String × β)) (k : String) :
    pyGet (e :: t) k = if e.1 = k then some e.2 else pyGet t k := by
  by_cases h : e.1 = k
  · have hb : (e.1 == k) = true := beq_iff_eq.mpr h
    simp [pyGet, List.find?, hb, h]
  · have hb : (e.1 == k) = false := beq_eq_false_iff_ne.mpr h
    simp [pyGet, List.find?, hb, h]

theorem pyGet_pySet {β : Type} (d : List (String × β)) (k k' : String) (v : β) :
    pyGet (pySet d k v) k' = if k' = k then some v else pyGet d k' := by
  induction d with
  | nil =>
    rw [show pySet ([] : List (String × β)) k v = [(k, v)] from rfl, pyGet_cons]
    by_cases h : k' = k
    · simp [h]
    · simp [h, Ne.symm h]
  | cons e t ih =>
    by_cases he : e.1 = k
    · rw [show pySet (e :: t) k v = (k, v) :: t from by simp [pySet, he], pyGet_cons,
        pyGet_cons]
      by_cases h : k' = k
      · simp [h, he]
      · simp [h, Ne.symm h, he, fun hh => h (he ▸ hh : k' = k)]
    · rw [show pySet (e :: t) k v = e :: pySet t k v from by simp [pySet, he],
        pyGet_cons, ih, pyGet_cons]
      by_cases h1 : e.1 = k'
      · have : ¬ k' = k := fun hh => he (h1.trans hh)
        simp [h1, this]
      · simp [h1]

theorem pyGet_not_mem {β : Type} {d : List (String × β)} {k : String}
    (h : k ∉ d.map Prod.fst) : pyGet d k = none := by
  induction d with
  | nil => rfl
  | cons e t ih =>
    simp only [List.map_cons, List.mem_cons] at h
    push_neg at h
    rw [pyGet_cons, if_neg (Ne.symm h.1)]
    exact ih h.2

theorem pyGet_dictMerge {β : Type} (ov : List (String × β)) :
    ∀ (base : List (String × β)) (k : String), (ov.map Prod.fst).Nodup →
      pyGet (dictMerge base ov) k = (pyGet ov k).or (pyGet base k) := by
  induction ov with
  | nil => intro base k _; rfl
  | cons e t ih =>
    intro base k hnd
    simp only [List.map_cons, List.nodup_cons] at hnd
    have hstep : dictMerge base (e :: t) = dictMerge (pySet base e.1 e.2) t := rfl
    rw [hstep, ih _ k hnd.2, pyGet_pySet, pyGet_cons]
    by_cases h : k = e.1
    · rw [if_pos h, if_pos h.symm, pyGet_not_mem (show k ∉ t.map Prod.fst from by rw [h]; exact hnd.1)]
      rfl
    · rw [if_neg h, if_neg (fun hh => h hh.symm)]

/-- C10: the effective handler table is the base table overlaid with the
format's override entries — on any code the override entry wins, otherwise
the base entry is used — and a data row whose first three characters are not
a key of the effective table is skipped silently: no error, and the period
records that the remaining lines are run against are unchanged. -/
theorem dispatch_table_overlay_skip :
    (∀ k, pyGet (dictMerge _HANDLERS _SHORT_HANDLERS) k =
        (pyGet _SHORT_HANDLERS k).or (pyGet _HANDLERS k)) ∧
    (∀ k, pyGet (dictMerge _HANDLERS _LONG_HANDLERS) k =
        (pyGet _LONG_HANDLERS k).or (pyGet _HANDLERS k)) ∧
    (∀ tbl size periods line rest, pyGet tbl (pyTake line 3) = none →
      parseLinesGo tbl size periods (line :: rest) =
        parseLinesGo tbl size periods rest) := by
  refine ⟨fun k => pyGet_dictMerge _ _ k (by decide),
          fun k => pyGet_dictMerge _ _ k (by decide), ?_⟩
  intro tbl size periods line rest h
  simp only [parseLinesGo, h]

/-- Witness for `dispatch_table_overlay_skip`: an unrecognized row code is
skipped by the short-range dispatcher. -/
theorem dispatch_table_overlay_skip_witness :
    parseLinesGo (dictMerge _HANDLERS _SHORT_HANDLERS) 3 []
        ["XYZ unknown row"] =
      parseLinesGo (dictMerge _HANDLERS _SHORT_HANDLERS) 3 [] [] :=
  dispatch_table_overlay_skip.2.2 _ 3 [] "XYZ unknown row" [] (by rfl)

theorem pyGet_pySet_isSome {β : Type} (d : List (String × β)) (k k' : String)
    (v : β) (h : (pyGet d k).isSome) : (pyGet (pySet d k' v) k).isSome := by
  rw [pyGet_pySet]
  split
  · rfl
  · exact h

theorem mergeOne_falsy (keys : List String) (p : PeriodRec) (v : HVal)
    (h : truthy v = false) : mergeOne keys p v = .ok p := by
  simp [mergeOne, h]

theorem mergePair_preserves :
    ∀ (keys : List String) (d : List (String × Val)) (a b : Option GNumber)
      (d' : List (String × Val)), mergePair d keys a b = .ok d' →
      ∀ k, (pyGet d k).isSome → (pyGet d' k).isSome := by
  intro keys d a b d' h k hk
  match keys with
  | [] =>
    simp [mergePair] at h
    subst h; exact hk
  | [k1] =>
    cases a with
    | none => simp [mergePair] at h; subst h; exact hk
    | some n => simp [mergePair] at h; subst h; exact pyGet_pySet_isSome _ _ _ _ hk
  | [k1, k2] =>
    cases a with
    | none =>
      cases b with
      | none => simp [mergePair] at h; subst h; exact hk
      | some n => simp [mergePair] at h; subst h; exact pyGet_pySet_isSome _ _ _ _ hk
    | some m =>
      cases b with
      | none => simp [mergePair] at h; subst h; exact pyGet_pySet_isSome _ _ _ _ hk
      | some n =>
        simp [mergePair] at h; subst h
        exact pyGet_pySet_isSome _ _ _ _ (pyGet_pySet_isSome _ _ _ _ hk)
  | k1 :: k2 :: k3 :: kr => simp [mergePair] at h

theorem mergeOne_preserves (keys : List String) (p : PeriodRec) (v : HVal)
    (q : PeriodRec) (hq : mergeOne keys p v = .ok q) (k : String)
    (hk : (pyGet p.fields k).isSome) : (pyGet q.fields k).isSome := by
  cases v with
  | non =>
    simp [mergeOne, truthy] at hq
    subst hq; exact hk
  | str s =>
    by_cases hs : s = ""
    · subst hs
      simp [mergeOne, truthy] at hq
      subst hq; exact hk
    · match keys, hq with
      | [], hq => simp [mergeOne, truthy, hs] at hq
      | k1 :: kr, hq =>
        simp [mergeOne, truthy, hs] at hq
        subst hq
        exact pyGet_pySet_isSome _ _ _ _ hk
  | num n =>
    match keys, hq with
    | [], hq => simp [mergeOne, truthy] at hq
    | k1 :: kr, hq =>
      simp [mergeOne, truthy] at hq
      subst hq
      exact pyGet_pySet_isSome _ _ _ _ hk
  | pair a b =>
    cases hmp : mergePair p.fields keys a b with
    | error e => simp [mergeOne, truthy, hmp, Except.map] at hq
    | ok d =>
      simp [mergeOne, truthy, hmp, Except.map] at hq
      subst hq
      exact mergePair_preserves keys p.fields a b d hmp k hk

theorem mergeLine_falsy (keys : List String) :
    ∀ (periods : List PeriodRec) (values : List HVal),
      periods.length ≤ values.length → (∀ v ∈ values, truthy v = false) →
      mergeLine keys periods values = .ok periods := by
  intro periods
  induction periods with
  | nil => intro values _ _; rfl
  | cons p ps ih =>
    intro values hlen hf
    match values with
    | [] => simp at hlen
    | v :: vs =>
      have h1 : truthy v = false := hf v (List.mem_cons_self _ _)
      simp only [mergeLine]
      rw [mergeOne_falsy _ _ _ h1,
        ih vs (by simpa using hlen) (fun w hw => hf w (List.mem_cons_of_mem _ hw))]

theorem mergeLine_preserves (keys : List String) :
    ∀ (periods : List PeriodRec) (values : List HVal) (ps : List PeriodRec),
      mergeLine keys periods values = .ok ps →
      ps.length = periods.length ∧
      (∀ i p q k, periods.get? i = some p → ps.get? i = some q →
        (pyGet p.fields k).isSome → (pyGet q.fields k).isSome) := by
  intro periods
  induction periods with
  | nil =>
    intro values ps h
    simp [mergeLine] at h
    subst h
    refine ⟨rfl, ?_⟩
    intro i p q k h1
    simp at h1
  | cons p0 ps0 ih =>
    intro values ps h
    match values with
    | [] => simp [mergeLine] at h
    | v :: vs =>
      simp only [mergeLine] at h
      cases h1 : mergeOne keys p0 v with
      | error e => rw [h1] at h; simp at h
      | ok q0 =>
        cases h2 : mergeLine keys ps0 vs with
        | error e => rw [h1, h2] at h; simp at h
        | ok qs =>
          rw [h1, h2] at h
          simp at h
          subst h
          obtain ⟨hl, hp⟩ := ih vs qs h2
          refine ⟨by simp [hl], ?_⟩
          intro i p q k hpi hqi hk
          match i with
          | 0 =>
            simp only [List.get?_cons_zero, Option.some_inj] at hpi hqi
            subst hpi; subst hqi
            exact mergeOne_preserves _ _ _ _ h1 k hk
          | Nat.succ j =>
            simp only [List.get?_cons_succ] at hpi hqi
            exact hp j p q k hpi hqi hk

/-- C6: the merge step (i) leaves the period records exactly unchanged when
every slot of the handler result is absent/falsy, (ii) never turns a present
field absent — any key present before the merge is still present after —
and (iii) merges paired results element-wise: an absent first element does
not block writing the second into its own field, and vice versa, writes to
one key never touching a different key. -/
theorem merge_preserves_present :
    (∀ keys periods values, periods.length ≤ values.length →
      (∀ v ∈ values, truthy v = false) →
      mergeLine keys periods values = Except.ok periods) ∧
    (∀ keys periods values ps, mergeLine keys periods values = Except.ok ps →
      ps.length = periods.length ∧
      (∀ i p q k, periods.get? i = some p → ps.get? i = some q →
        (pyGet p.fields k).isSome → (pyGet q.fields k).isSome)) ∧
    (∀ (p : PeriodRec) (k1 k2 : String) (n : GNumber),
      mergeOne [k1, k2] p (.pair none (some n)) =
        .ok { p with fields := pySet p.fields k2 (.vNum n) }) ∧
    (∀ (p : PeriodRec) (k1 k2 : String) (m : GNumber),
      mergeOne [k1, k2] p (.pair (some m) none) =
        .ok { p with fields := pySet p.fields k1 (.vNum m) }) ∧
    (∀ (d : List (String × Val)) (k k' : String) (v : Val), k ≠ k' →
      pyGet (pySet d k v) k' = pyGet d k') :=
  ⟨mergeLine_falsy, mergeLine_preserves,
   fun _ _ _ _ => rfl, fun _ _ _ _ => rfl,
   fun d k k' v h => by rw [pyGet_pySet, if_neg (fun hh => h hh.symm)]⟩

/-- Witness for `merge_preserves_present`: an all-absent row leaves a
one-period record list unchanged. -/
theorem merge_preserves_present_witness :
    mergeLine ["temperature"] [{ time := ⟨"06", 0⟩, fields := [] }] [HVal.non] =
      Except.ok [{ time := ⟨"06", 0⟩, fields := [] }] :=
  merge_preserves_present.1 ["temperature"] [{ time := ⟨"06", 0⟩, fields := [] }]
    [HVal.non] (by decide) (by decide)

theorem hourOfMin_bounds (t : Int) : 0 ≤ hourOfMin t ∧ hourOfMin t < 24 := by
  unfold hourOfMin
  omega

theorem hourOfMin_add (t d : Int) :
    hourOfMin (t + 60 * d) = (hourOfMin t + d) % 24 := by
  unfold hourOfMin
  omega

theorem findTimePeriodsGo_chain :
    ∀ (toks : List String) (prev t : Int) (ps : List PeriodRec),
      (∀ s ∈ toks, s ≠ "" → ∃ n, pyToNat s = some n ∧ n < 24) →
      prev = hourOfMin t →
      findTimePeriodsGo prev t toks = .ok ps →
      List.Chain (fun a b => a ≤ b ∧ (a = b ↔ hourOfMin a = hourOfMin b)) t
        (ps.map (fun p => p.time.dt)) := by
  intro toks
  induction toks with
  | nil =>
    intro prev t ps _ _ h
    simp only [findTimePeriodsGo] at h
    cases h
    exact List.Chain.nil
  | cons s rest ih =>
    intro prev t ps hv hprev h
    by_cases hs : s = ""
    · rw [show findTimePeriodsGo prev t (s :: rest) =
          if s = "" then findTimePeriodsGo prev t rest else _ from rfl,
        if_pos hs] at h
      exact ih prev t ps (fun x hx hne => hv x (List.mem_cons_of_mem _ hx) hne) hprev h
    · obtain ⟨n, hn, hn24⟩ := hv s (List.mem_cons_self _ _) hs
      simp only [findTimePeriodsGo, if_neg hs, hn] at h
      cases hrec : findTimePeriodsGo ((n : Nat) : Int)
          (t + 60 * (if (n : Int) - prev < 0 then (n : Int) - prev + 24
                     else (n : Int) - prev)) rest with
      | error e => rw [hrec] at h; simp [Except.map] at h
      | ok ps' =>
        rw [hrec] at h
        simp only [Except.map, Except.ok.injEq] at h
        subst h
        have hb := hourOfMin_bounds t
        rw [← hprev] at hb
        set d : Int := if (n : Int) - prev < 0 then (n : Int) - prev + 24
                       else (n : Int) - prev with hd
        have hd0 : 0 ≤ d := by rw [hd]; split <;> omega
        have hd24 : d < 24 := by rw [hd]; split <;> omega
        have hdeq : d = 0 ↔ (n : Int) = prev := by rw [hd]; split <;> omega
        have hhour : hourOfMin (t + 60 * d) = (n : Int) := by
          rw [hourOfMin_add, ← hprev]
          have : prev + d = n ∨ prev + d = (n : Int) + 24 := by rw [hd]; split <;> omega
          rcases this with h1 | h1 <;> rw [h1] <;> omega
        rw [List.map_cons]
        refine List.Chain.cons ⟨?_, ?_⟩ ?_
        · show t ≤ t + 60 * d
          omega
        · show t = t + 60 * d ↔ hourOfMin t = hourOfMin (t + 60 * d)
          rw [hhour]
          rw [← hprev]
          omega
        · exact ih ((n : Nat) : Int) (t + 60 * d) ps'
            (fun x hx hne => hv x (List.mem_cons_of_mem _ hx) hne) hhour.symm hrec

/-- C3 counterexample: hour tokens `["12", "12"]` at an issuance instant
with hour-of-day 12 (t = 720 minutes).  The second hour-of-day does not
increase relative to the first, yet both resolved timestamps are the same
instant 720 — the clock does not roll to the next day on an equal hour, so
the resolved timestamp is not strictly greater. -/
theorem time_periods_equal_hour_not_strict :
    _find_time_periods ["12", "12"] 720 =
      .ok [⟨⟨"12", 720⟩, []⟩, ⟨⟨"12", 720⟩, []⟩] ∧ ¬ (720 : Int) < 720 :=
  ⟨by rfl, by omega⟩

/-- C3 (amended): for valid hour tokens (digits, value < 24) the resolved
timestamps are non-decreasing from the issuance instant on, and each step is
strictly increasing exactly when the hour-of-day changes; on an equal
hour-of-day the timestamp repeats unchanged (no day roll). -/
theorem time_periods_monotone (toks : List String) (t0 : Int) (ps : List PeriodRec)
    (hv : ∀ s ∈ toks, s ≠ "" → ∃ n, pyToNat s = some n ∧ n < 24)
    (hok : _find_time_periods toks t0 = .ok ps) :
    List.Chain (fun a b => a ≤ b ∧ (a = b ↔ hourOfMin a = hourOfMin b)) t0
      (ps.map (fun p => p.time.dt)) :=
  findTimePeriodsGo_chain toks (hourOfMin t0) t0 ps hv rfl hok

/-- Witness for `time_periods_monotone` on hour tokens 06, 09 from an
issuance instant at 12:00. -/
theorem time_periods_monotone_witness :
    List.Chain (fun a b => a ≤ b ∧ (a = b ↔ hourOfMin a = hourOfMin b)) 720
      (([⟨⟨"06", 1800⟩, []⟩, ⟨⟨"09", 1980⟩, []⟩] : List PeriodRec).map
        (fun p => p.time.dt)) :=
  time_periods_monotone ["06", "09"] 720 _
    (by
      intro s hs _
      simp only [List.mem_cons, List.not_mem_nil, or_false] at hs
      rcases hs with rfl | rfl
      · exact ⟨6, rfl, by omega⟩
      · exact ⟨9, rfl, by omega⟩)
    (by rfl)

/-- One step of the claim's timeline algorithm, written as a fold over the
non-empty hour tokens: parse the hour, take the delta from the previous hour,
add 24 if negative, advance the clock, append the token text paired with the
new clock value, and carry the parsed hour forward. -/
def specStep : Int × Int × List (String × Int) → String → Int × Int × List (String × Int)
  | (prevHour, clock, out), tok =>
    let hour : Int := (((pyToNat tok).getD 0 : Nat) : Int)
    let delta0 := hour - prevHour
    let delta := if delta0 < 0 then delta0 + 24 else delta0
    let clock2 := clock + 60 * delta
    (hour, clock2, out ++ [(tok, clock2)])

/-- The claim's timeline algorithm: fold `specStep` over the non-empty
tokens, starting from the issuance instant and its hour-of-day. -/
def specTimeline (toks : List String) (t0 : Int) : List (String × Int) :=
  ((toks.filter (fun s => s != "")).foldl specStep (hourOfMin t0, t0, [])).2.2

theorem foldl_specStep_out :
    ∀ (l : List String) (ph c : Int) (acc : List (String × Int)),
      (l.foldl specStep (ph, c, acc)).2.2 =
        acc ++ (l.foldl specStep (ph, c, [])).2.2 := by
  intro l
  induction l with
  | nil => intro ph c acc; simp
  | cons s r ih =>
    intro ph c acc
    rw [List.foldl_cons, List.foldl_cons]
    rw [show specStep (ph, c, acc) s =
        ((specStep (ph, c, []) s).1, (specStep (ph, c, []) s).2.1,
          acc ++ [(s, (specStep (ph, c, []) s).2.1)]) from rfl]
    rw [show specStep (ph, c, []) s =
        ((specStep (ph, c, []) s).1, (specStep (ph, c, []) s).2.1,
          [(s, (specStep (ph, c, []) s).2.1)]) from rfl]
    rw [ih _ _ (acc ++ [(s, (specStep (ph, c, []) s).2.1)]),
      ih _ _ [(s, (specStep (ph, c, []) s).2.1)]]
    rw [List.append_assoc]

theorem findTimePeriodsGo_spec :
    ∀ (toks : List String) (prev t : Int),
      (∀ s ∈ toks, s ≠ "" → (pyToNat s).isSome) →
      findTimePeriodsGo prev t toks =
        .ok (((toks.filter (fun s => s != "")).foldl specStep (prev, t, [])).2.2.map
          (fun q => { time := { repr := q.1, dt := q.2 }, fields := [] })) := by
  intro toks
  induction toks with
  | nil => intro prev t _; rfl
  | cons s rest ih =>
    intro prev t hv
    by_cases hs : s = ""
    · subst hs
      rw [show findTimePeriodsGo prev t ("" :: rest) =
          findTimePeriodsGo prev t rest from rfl]
      rw [ih prev t (fun x hx hne => hv x (List.mem_cons_of_mem _ hx) hne)]
      rw [show List.filter (fun s => s != "") ("" :: rest) =
          List.filter (fun s => s != "") rest from by simp]
    · obtain ⟨n, hn⟩ := Option.isSome_iff_exists.mp
        (hv s (List.mem_cons_self _ _) hs)
      simp only [findTimePeriodsGo, if_neg hs, hn]
      rw [ih ((n : Nat) : Int)
          (t + 60 * (if (n : Int) - prev < 0 then (n : Int) - prev + 24
                     else (n : Int) - prev))
          (fun x hx hne => hv x (List.mem_cons_of_mem _ hx) hne)]
      rw [show List.filter (fun s => s != "") (s :: rest) =
          s :: List.filter (fun s => s != "") rest from by simp [hs]]
      rw [List.foldl_cons]
      rw [show specStep (prev, t, []) s =
          ((n : Int), t + 60 * (if (n : Int) - prev < 0 then (n : Int) - prev + 24
                     else (n : Int) - prev),
            [(s, t + 60 * (if (n : Int) - prev < 0 then (n : Int) - prev + 24
                     else (n : Int) - prev))]) from by
        simp [specStep, hn]]
      simp only [Except.map]
      congr 1
      conv_rhs => rw [foldl_specStep_out]
      simp

/-- C4: for every token list whose non-empty tokens parse as integers, the
Timeline Builder emits exactly one timestamped (initially otherwise-empty)
period per non-empty token, in encounter order, equal to the stated
algorithm: starting from the issuance instant and its hour-of-day, parse the
hour, take `delta = hour - previous_hour`, add 24 when negative, advance the
clock by `delta` hours, pair the token text with the new clock value, and
carry the parsed hour forward. -/
theorem time_periods_algorithm (toks : List String) (t0 : Int)
    (hv : ∀ s ∈ toks, s ≠ "" → (pyToNat s).isSome) :
    _find_time_periods toks t0 =
      .ok ((specTimeline toks t0).map
        (fun q => { time := { repr := q.1, dt := q.2 }, fields := [] })) :=
  findTimePeriodsGo_spec toks (hourOfMin t0) t0 hv

/-- Witness for `time_periods_algorithm` on hour tokens 06, 09 (with an
empty skipped token) from an issuance instant at 12:00. -/
theorem time_periods_algorithm_witness :
    _find_time_periods ["06", "", "09"] 720 =
      .ok ((specTimeline ["06", "", "09"] 720).map
        (fun q => { time := { repr := q.1, dt := q.2 }, fields := [] })) :=
  time_periods_algorithm ["06", "", "09"] 720 (by decide)

/-- One step of the pending state of the paired-column scan, as the claim
describes it: an empty token leaves the pending state alone; a non-empty
token completes a pending pair (clearing the state) or becomes pending. -/
def pendStep (conv : String → Option GNumber) (pending : Option GNumber)
    (s : String) : Option GNumber :=
  if s = "" then pending
  else if pending.isSome then none else conv s

/-- The pending value of the paired-column scan just before slot `i`. -/
def pend (conv : String → Option GNumber) (start : Option GNumber)
    (toks : List String) : Nat → Option GNumber
  | 0 => start
  | i + 1 =>
    match toks.get? i with
    | some s => pendStep conv (pend conv start toks i) s
    | none => pend conv start toks i

theorem pend_cons (conv : String → Option GNumber) (start : Option GNumber)
    (s : String) (rest : List String) :
    ∀ j, pend conv start (s :: rest) (j + 1) =
      pend conv (pendStep conv start s) rest j := by
  intro j
  induction j with
  | zero => rfl
  | succ k ih =>
    rw [show pend conv start (s :: rest) (k + 1 + 1) =
        (match rest.get? k with
         | some x => pendStep conv (pend conv start (s :: rest) (k + 1)) x
         | none => pend conv start (s :: rest) (k + 1)) from rfl]
    rw [show pend conv (pendStep conv start s) rest (k + 1) =
        (match rest.get? k with
         | some x => pendStep conv (pend conv (pendStep conv start s) rest k) x
         | none => pend conv (pendStep conv start s) rest k) from rfl]
    rw [ih]

theorem thunderScan_step (conv : String → Option GNumber)
    (start : Option GNumber) (x : String) (rest : List String) :
    thunderScan conv start (x :: rest) =
      (if x = "" then HVal.non
       else match start with
            | some p => HVal.pair (some p) (conv x)
            | none => HVal.non) :: thunderScan conv (pendStep conv start x) rest := by
  by_cases hx : x = ""
  · simp [thunderScan, pendStep, hx]
  · cases start with
    | some p => simp [thunderScan, pendStep, hx]
    | none => simp [thunderScan, pendStep, hx]

theorem thunderScan_char (conv : String → Option GNumber) :
    ∀ (toks : List String) (start : Option GNumber),
      (thunderScan conv start toks).length = toks.length ∧
      (∀ i s, toks.get? i = some s →
        (thunderScan conv start toks).get? i =
          some (if s = "" then HVal.non
                else match pend conv start toks i with
                     | some p => HVal.pair (some p) (conv s)
                     | none => HVal.non)) := by
  intro toks
  induction toks with
  | nil =>
    intro start
    refine ⟨rfl, ?_⟩
    intro i s h
    simp at h
  | cons x rest ih =>
    intro start
    rw [thunderScan_step]
    refine ⟨by simp [(ih (pendStep conv start x)).1], ?_⟩
    intro i s h
    match i with
    | 0 =>
      simp only [List.get?_cons_zero, Option.some_inj] at h
      subst h
      rfl
    | Nat.succ j =>
      simp only [List.get?_cons_succ] at h
      rw [List.get?_cons_succ, (ih (pendStep conv start x)).2 j s h, pend_cons]

theorem thunderScan_pairs (conv : String → Option GNumber) :
    ∀ (toks : List String) (start : Option GNumber),
      (∀ s ∈ toks, s ≠ "" → (conv s).isSome) →
      ∀ v ∈ thunderScan conv start toks, ∀ a b, v = HVal.pair a b →
        a.isSome ∧ b.isSome := by
  intro toks
  induction toks with
  | nil => intro start _ v hv; simp [thunderScan] at hv
  | cons x rest ih =>
    intro start hconv v hv a b hab
    rw [thunderScan_step] at hv
    rcases List.mem_cons.mp hv with h | h
    · by_cases hx : x = ""
      · rw [if_pos hx] at h; subst h; simp at hab
      · rw [if_neg hx] at h
        cases hst : start with
        | none => rw [hst] at h; subst h; simp at hab
        | some p =>
          rw [hst] at h
          subst h
          cases hab
          exact ⟨rfl, hconv x (List.mem_cons_self _ _) hx⟩
    · exact ih (pendStep conv start x)
        (fun w hw hne => hconv w (List.mem_cons_of_mem _ hw) hne) v h a b hab

/-- C9: in the paired-column handler, slot `i` of the output is determined
by token `i` and the left-to-right pending state: an empty token yields an
absent slot; a non-empty token yields the completed two-element pair
`(pending, converted token)` when a pending first element exists, and an
absent slot (becoming pending itself) otherwise — so isolated or trailing
values yield absent slots, and every emitted pair has both elements present
(never a one-element or zero-filled pair). -/
theorem thunder_pairing_spec (line : String) (size : Nat)
    (hc : ∀ s ∈ _split_line line size 5 [' ', '/'], s ≠ "" →
      (make_number s).isSome) :
    (_thunder line size).length = (_split_line line size 5 [' ', '/']).length ∧
    (∀ i s, (_split_line line size 5 [' ', '/']).get? i = some s →
      (_thunder line size).get? i =
        some (if s = "" then HVal.non
              else match pend make_number none (_split_line line size 5 [' ', '/']) i with
                   | some p => HVal.pair (some p) (make_number s)
                   | none => HVal.non)) ∧
    (∀ v ∈ _thunder line size, ∀ a b, v = HVal.pair a b →
      a.isSome ∧ b.isSome) :=
  ⟨(thunderScan_char make_number (_split_line line size 5 [' ', '/']) none).1,
   (thunderScan_char make_number (_split_line line size 5 [' ', '/']) none).2,
   thunderScan_pairs make_number (_split_line line size 5 [' ', '/']) none hc⟩

/-- Witness for `thunder_pairing_spec` on a row with tokens "12", "34". -/
theorem thunder_pairing_spec_witness :
    (_thunder "XXXXX 12 34" 3).length =
      (_split_line "XXXXX 12 34" 3 5 [' ', '/']).length :=
  (thunder_pairing_spec "XXXXX 12 34" 3 (by decide)).1

/-- The claim's "exact layout": `MM/DD/YYYY` followed by two literal spaces
and `HHMM`, every field zero-padded to fixed width — 16 characters in all.
Stated from the spec's words, for comparison with what `_timestamp`
actually accepts. -/
def specExactLayout (s : String) : Bool :=
  match s.data with
  | [m1, m2, a, d1, d2, b, y1, y2, y3, y4, g1, g2, h1, h2, n1, n2] =>
    m1.isDigit && m2.isDigit && a = '/' && d1.isDigit && d2.isDigit && b = '/' &&
    y1.isDigit && y2.isDigit && y3.isDigit && y4.isDigit &&
    g1 = ' ' && g2 = ' ' && h1.isDigit && h2.isDigit && n1.isDigit && n2.isDigit
  | _ => false

/-- C7 counterexample: the extracted span `line[27:42]` is only 15 characters
— it cannot be in the claim's 16-character exact layout (here the month has a
single digit), yet `_timestamp` succeeds rather than failing, because
`strptime` accepts 1-2 digit fields.  So "not in the exact layout" does not
imply a parse failure. -/
theorem timestamp_flexible_layout_cex :
    specExactLayout
      (pySlice "KXYZ   GFS MOS GUIDANCE    1/02/2023  1200 UTC" 27 42) = false ∧
    (_timestamp "KXYZ   GFS MOS GUIDANCE    1/02/2023  1200 UTC").map
      (fun t => t.repr) = .ok "1/02/2023  1200" :=
  ⟨by rfl, by rfl⟩

/-- C7 (amended): `_timestamp` extracts the fixed 15-character span
`line[27:42]` and parses it with CPython's flexible `strptime` matching
(1-2 digit month/day/hour/minute, 4-digit year, a whitespace run for the
format's spaces), returning a Timestamp that pairs the literal span with the
resolved UTC instant; when the span cannot be parsed the error is uncaught,
so the whole parse of either format fails with no partial result. -/
theorem timestamp_resolver_spec (line report : String) :
    (∀ t, parseMDYHM (pySlice line 27 42).data = some t →
      _timestamp line = .ok ⟨pySlice line 27 42, dtMinutes t⟩) ∧
    (parseMDYHM (pySlice line 27 42).data = none →
      _timestamp line = .error ()) ∧
    (report ≠ "" →
      _timestamp ((pySplitLines (pyStrip report)).headD "") = .error () →
      parse_mav report = .error () ∧ parse_mex report = .error ()) := by
  refine ⟨?_, ?_, ?_⟩
  · intro t ht
    simp only [_timestamp, ht]
  · intro ht
    simp only [_timestamp, ht]
  · intro hr ht
    constructor
    · simp only [parse_mav, if_neg hr, _init_parse, ht]
      rfl
    · simp only [parse_mex, if_neg hr, _init_parse, ht]
      rfl

/-- Witness for `timestamp_resolver_spec`: a parseable header span, and an
unparseable one aborting both format parsers. -/
theorem timestamp_resolver_spec_witness :
    _timestamp "KXYZ   GFS MOS GUIDANCE    1/02/2023  1200 UTC" =
      .ok ⟨"1/02/2023  1200", 1063470960⟩ ∧
    parse_mav "no timestamp here" = .error () ∧
    parse_mex "no timestamp here" = .error () :=
  ⟨(timestamp_resolver_spec "KXYZ   GFS MOS GUIDANCE    1/02/2023  1200 UTC"
      "x").1 ⟨2023, 1, 2, 12, 0⟩ (by rfl),
   (timestamp_resolver_spec "" "no timestamp here").2.2 (by decide) (by rfl)⟩

/-- C8: when the bulletin has a third line containing `" CLIMO"` (first
occurrence at index `k`), `parse_mex` runs the rest of the parse on every
line truncated to its first `k` characters — so each line the timeline and
data rows are read from has length at most `k`, and no period record can
hold a value derived from text at or after the marker; when there is no
third line or no marker, the lines are used unchanged. -/
theorem parse_mex_climo_truncation (report : String) (init : InitData)
    (hr : report ≠ "") (hi : _init_parse report = .ok init) :
    (∀ l2 k, init.lines.get? 2 = some l2 → findSub l2 " CLIMO" = some k →
      parse_mex report =
        (mexTail init.time init.raw init.station
          (init.lines.map (fun l => pyTake l k))).map some ∧
      (∀ l ∈ init.lines.map (fun l => pyTake l k), l.length ≤ k)) ∧
    ((∀ l2, init.lines.get? 2 = some l2 → findSub l2 " CLIMO" = none) →
      parse_mex report =
        (mexTail init.time init.raw init.station init.lines).map some) := by
  constructor
  · intro l2 k h2 hk
    constructor
    · unfold parse_mex
      rw [if_neg hr, hi]
      simp only [Except.bind, h2, hk]
    · intro l hl
      rcases List.mem_map.mp hl with ⟨l0, _, rfl⟩
      show (l0.data.take k).length ≤ k
      simp [List.length_take]
  · intro hno
    unfold parse_mex
    rw [if_neg hr, hi]
    simp only [Except.bind]
    cases h2 : init.lines.get? 2 with
    | none => simp only [h2]
    | some l2 => simp only [h2, hno l2 h2]

/-- Witness for `parse_mex_climo_truncation` on a three-line bulletin whose
third line holds `" CLIMO"` at index 1. -/
theorem parse_mex_climo_truncation_witness :
    parse_mex
      "KXYZ   GFS MOS GUIDANCE    1/02/2023  1200 UTC\nHR   06 09\nX CLIMO Y" =
      (mexTail ⟨"1/02/2023  1200", 1063470960⟩
        "KXYZ   GFS MOS GUIDANCE    1/02/2023  1200 UTC\nHR   06 09\nX CLIMO Y"
        "KXYZ"
        (["KXYZ   GFS MOS GUIDANCE    1/02/2023  1200 UTC", "HR   06 09",
          "X CLIMO Y"].map (fun l => pyTake l 1))).map some :=
  ((parse_mex_climo_truncation
      "KXYZ   GFS MOS GUIDANCE    1/02/2023  1200 UTC\nHR   06 09\nX CLIMO Y"
      ⟨"KXYZ   GFS MOS GUIDANCE    1/02/2023  1200 UTC\nHR   06 09\nX CLIMO Y",
        "KXYZ", ⟨"1/02/2023  1200", 1063470960⟩,
        ["KXYZ   GFS MOS GUIDANCE    1/02/2023  1200 UTC", "HR   06 09",
          "X CLIMO Y"]⟩
      (by decide) (by rfl)).1 "X CLIMO Y" 1 (by rfl) (by rfl)).1
